import Mathlib

/-!
# Verification of the chat-widget history optimizer and citation renderer

A shallow embedding of the conversation-history optimizer, message
compressor, history store and citation/reference renderer of the
`beyondsimulations/web-embedded-chat` widget (`src/floating-chat.js`, with
the same logic duplicated in the unnamed widget variants), together with
theorems settling the specification's claims about them.

Strings are modelled as Lean `String`s (sequences of characters); JavaScript
string lengths count UTF-16 code units while Lean counts scalar points, a
difference that does not affect any statement below, which only ever
compare lengths of strings derived from one another.
-/

set_option maxRecDepth 4000

namespace ChatWidget

/-! ## Constants (`LIMITS` in `floating-chat.js`) -/

def MAX_MESSAGE_LENGTH : Nat := 2000
def MAX_HISTORY_MESSAGES : Nat := 100
def MAX_HISTORY_TOKENS : Nat := 4000
def ALWAYS_KEEP_RECENT : Nat := 10
def SOURCE_NAME_LENGTH : Nat := 500
def SOURCE_DESC_LENGTH : Nat := 1000
def SNIPPET_LENGTH : Nat := 200
def COMPRESSED_MSG_LENGTH : Nat := 200
def USER_MSG_LENGTH : Nat := 500
def MAX_HEADINGS_LENGTH : Nat := 100
def MIN_CITATION_LENGTH : Nat := 15
def CHARS_PER_TOKEN : Nat := 4

/-! ## String helpers (JavaScript string primitives) -/

/-- JavaScript `s.substring(0, n)`: the first `n` characters of `s`. -/
def strTake (s : String) (n : Nat) : String := ⟨s.data.take n⟩

/-- JavaScript `s.length` (character count). -/
def strLen (s : String) : Nat := s.data.length

/-- The whitespace class used by JavaScript's `trim` and `\s` (the rarer
Unicode space separators are omitted; none occur in this development). -/
def jsIsSpace (c : Char) : Bool :=
  c = ' ' || c = '\t' || c = '\n' || c = '\r' ||
  c = Char.ofNat 11 || c = Char.ofNat 12 || c = Char.ofNat 160 ||
  c = Char.ofNat 65279

/-- JavaScript `s.trim()` on a character list. -/
def jsTrimList (l : List Char) : List Char :=
  ((l.dropWhile jsIsSpace).reverse.dropWhile jsIsSpace).reverse

/-- JavaScript `s.trim()`. -/
def jsTrim (s : String) : String := ⟨jsTrimList s.data⟩

/-! ## The citation-marker scanner

The regular expression `/\[(\d+)\]/g` scans the text left to right; at each
position it matches a literal `[`, a maximal nonempty digit run, and a
literal `]` (backtracking inside the digit run can never produce the
required `]`, so the maximal run is the only candidate).  On success the
scan resumes after the match, on failure at the next character.  The
scanner below produces the corresponding token stream once, and the
widget's three uses of this expression (stripping markers during
compression, collecting citation numbers, and rewriting markers into
links) are all defined from it. -/

theorem dropWhile_length_le {α : Type} (p : α → Bool) (l : List α) :
    (l.dropWhile p).length ≤ l.length := by
  induction l with
  | nil => simp
  | cons a l ih =>
    cases hp : p a
    · rw [List.dropWhile_cons_of_neg (by simp [hp])]
    · rw [List.dropWhile_cons_of_pos hp]
      exact ih.trans (Nat.le_succ _)

inductive CTok where
  | chr (c : Char)
  | marker (digits : List Char)
deriving DecidableEq

def lbrk : Char := '['
def rbrk : Char := ']'

def scanCitationsF : Nat → List Char → List CTok
  | 0, _ => []
  | _, [] => []
  | fuel + 1, c :: rest =>
    if c = lbrk then
      match rest.dropWhile Char.isDigit with
      | b :: after =>
        if (rest.takeWhile Char.isDigit) ≠ [] ∧ b = rbrk then
          CTok.marker (rest.takeWhile Char.isDigit) :: scanCitationsF fuel after
        else
          CTok.chr c :: scanCitationsF fuel rest
      | [] => CTok.chr c :: scanCitationsF fuel rest
    else
      CTok.chr c :: scanCitationsF fuel rest

/-- The token stream of a text.  Fuel is the character count: each token
consumes at least one character (a failed match at `[` consumes exactly
the `[`, as the regex engine then retries from the following character),
so the fuel never runs out. -/
def scanCitations (l : List Char) : List CTok := scanCitationsF l.length l

/-- The literal text a token stands for. -/
def ctokText : CTok → List Char
  | .chr c => [c]
  | .marker ds => lbrk :: (ds ++ [rbrk])

/-- JavaScript `parseInt` on a digit run. -/
def digitsToNat (ds : List Char) : Nat :=
  ds.foldl (fun a c => a * 10 + (c.toNat - 48)) 0

/-- The replace `s.replace(/\[(\d+)\]/g, "")`. -/
def removeCitationMarkers (s : String) : String :=
  ⟨(scanCitations s.data).filterMap (fun t =>
      match t with | .chr c => some c | .marker _ => none)⟩

/-- The numbers of the `[N]` markers of `s`, in textual order
(`content.match(/\[(\d+)\]/g)` mapped through `parseInt`). -/
def citationNumbersIn (s : String) : List Nat :=
  (scanCitations s.data).filterMap (fun t =>
      match t with | .marker ds => some (digitsToNat ds) | _ => none)

/-! ## Fenced code blocks -/

def backtick : Char := Char.ofNat 96

/-- Splits at the first run of three backticks: `some (before, after)`. -/
def splitAtTicks : List Char → Option (List Char × List Char)
  | a :: b :: c :: rest =>
    if a = backtick ∧ b = backtick ∧ c = backtick then some ([], rest)
    else
      match splitAtTicks (b :: c :: rest) with
      | some (pre, post) => some (a :: pre, post)
      | none => none
  | _ => none

/-- The replace of fenced code blocks by `[code]` (the regex is a non-greedy triple-backtick pair): each fenced block —
an opening triple backtick up to the next triple backtick — becomes the
placeholder `[code]`; an unclosed opening fence is left as it stands (the
pattern needs both fences, and once fewer than two tick runs remain no
match can start anywhere in the remainder). Fuel is the character count;
each step consumes at least one character, so it never runs out. -/
def replaceCodeBlocksF : Nat → List Char → List Char
  | 0, l => l
  | fuel + 1, l =>
    match splitAtTicks l with
    | none => l
    | some (pre, rest) =>
      match splitAtTicks rest with
      | none => l
      | some (_, post) =>
        pre ++ ("[code]").data ++ replaceCodeBlocksF fuel post

def replaceCodeBlocks (s : String) : String :=
  ⟨replaceCodeBlocksF s.data.length s.data⟩

/-- The replace `s.replace(/[#*_]/g, "")`. -/
def stripMdChars (s : String) : String :=
  ⟨s.data.filter (fun c => !(c = '#' || c = '*' || c = '_'))⟩

/-! ## Message compression (`ChatState._compressMessage`) -/

inductive Role where
  | user
  | assistant
  | system
deriving DecidableEq

structure ChatMessage where
  role : Role
  content : String
deriving DecidableEq

/-- The cleaned content an assistant message is compressed from: code
blocks replaced by `[code]`, citation markers removed, markdown emphasis
characters removed, whitespace trimmed. -/
def cleanedContent (s : String) : String :=
  jsTrim (stripMdChars (removeCitationMarkers (replaceCodeBlocks s)))

def isSentenceEnd (c : Char) : Bool := c = '.' || c = '!' || c = '?'

/-- The match `content.match(/^[^.!?]+[.!?]/)`: the prefix up to and including the
first sentence delimiter, provided at least one non-delimiter character
precedes it. -/
def firstSentence (s : String) : Option String :=
  match s.data.findIdx? isSentenceEnd with
  | some i => if i = 0 then none else some ⟨s.data.take (i + 1)⟩
  | none => none

def compressMessage (message : ChatMessage) : ChatMessage :=
  if message.role = Role.user then
    { role := Role.user, content := strTake message.content USER_MSG_LENGTH }
  else
    let content := cleanedContent message.content
    let compressed :=
      match firstSentence content with
      | some fs => fs
      | none => strTake content COMPRESSED_MSG_LENGTH
    { role := Role.assistant,
      content := compressed ++
        (if strLen compressed < strLen content then "..." else "") }

/-! ## Token estimation and history optimization -/

/-- Method `ChatState._estimateTokens`: `Math.ceil(text.length / 4)`, `0` for a
falsy (empty) text. -/
def estimateTokens (text : String) : Nat :=
  if text = "" then 0
  else (strLen text + (CHARS_PER_TOKEN - 1)) / CHARS_PER_TOKEN

/-- The widget's options; `0` models an absent (falsy) option, resolved
against the `LIMITS` default by `o.x || DEFAULT` as in the source. -/
structure ChatOptions where
  alwaysKeepRecentMessages : Nat
  maxHistoryTokens : Nat
  maxHistoryMessages : Nat

def effAlwaysKeepRecent (o : ChatOptions) : Nat :=
  if o.alwaysKeepRecentMessages = 0 then ALWAYS_KEEP_RECENT
  else o.alwaysKeepRecentMessages

def effMaxHistoryTokens (o : ChatOptions) : Nat :=
  if o.maxHistoryTokens = 0 then MAX_HISTORY_TOKENS else o.maxHistoryTokens

def effMaxHistoryMessages (o : ChatOptions) : Nat :=
  if o.maxHistoryMessages = 0 then MAX_HISTORY_MESSAGES
  else o.maxHistoryMessages

/-- The fold `reduce((sum, msg) => sum + estimateTokens(msg.content), 0)`. -/
def sumTokens (l : List ChatMessage) : Nat :=
  (l.map (fun m => estimateTokens m.content)).sum

/-- The slice `history.slice(-recentCount)` where
`recentCount = Math.min(alwaysKeepRecentMessages, history.length)`. -/
def recentOf (o : ChatOptions) (history : List ChatMessage) : List ChatMessage :=
  history.drop (history.length - min (effAlwaysKeepRecent o) history.length)

/-- The slice `history.slice(0, -recentCount)`. -/
def olderOf (o : ChatOptions) (history : List ChatMessage) : List ChatMessage :=
  history.take (history.length - min (effAlwaysKeepRecent o) history.length)

/-- The compression loop of `optimizeHistory`: walk the older messages
from most recent to least recent (the list argument is the older part
reversed), compress each, and prepend it while the running token count
stays within budget; stop at the first message that does not fit. -/
def optimizeLoop (maxTokens : Nat) :
    List ChatMessage → Nat → List ChatMessage → List ChatMessage
  | [], _, optimized => optimized
  | m :: rest, tokenCount, optimized =>
    let compressed := compressMessage m
    let compressedTokens := estimateTokens compressed.content
    if tokenCount + compressedTokens ≤ maxTokens then
      optimizeLoop maxTokens rest (tokenCount + compressedTokens)
        (compressed :: optimized)
    else optimized

/-- Method `ChatState.optimizeHistory`. -/
def optimizeHistory (o : ChatOptions) (history : List ChatMessage) :
    List ChatMessage :=
  if history.length = 0 then []
  else
    let recentMessages := recentOf o history
    let olderMessages := olderOf o history
    let tokenCount := sumTokens recentMessages
    let maxTokens := effMaxHistoryTokens o
    if tokenCount < maxTokens ∧ olderMessages.length = 0 then history
    else optimizeLoop maxTokens olderMessages.reverse tokenCount recentMessages

/-- Method `ChatState.trimHistory`: evict the oldest messages when the stored
history exceeds the cap (`history.slice(-maxMessages)`). -/
def trimHistory (o : ChatOptions) (history : List ChatMessage) :
    List ChatMessage :=
  if history.length > effMaxHistoryMessages o then
    history.drop (history.length - effMaxHistoryMessages o)
  else history

/-! ## Structure of the optimizer's output -/

theorem sumTokens_nil : sumTokens [] = 0 := rfl

theorem sumTokens_cons (m : ChatMessage) (l : List ChatMessage) :
    sumTokens (m :: l) = estimateTokens m.content + sumTokens l := by
  simp [sumTokens]

theorem sumTokens_append (l₁ l₂ : List ChatMessage) :
    sumTokens (l₁ ++ l₂) = sumTokens l₁ + sumTokens l₂ := by
  simp [sumTokens]

theorem olderOf_append_recentOf (o : ChatOptions) (H : List ChatMessage) :
    olderOf o H ++ recentOf o H = H :=
  List.take_append_drop _ H

theorem length_recentOf (o : ChatOptions) (H : List ChatMessage) :
    (recentOf o H).length = min (effAlwaysKeepRecent o) H.length := by
  have h := min_le_right (effAlwaysKeepRecent o) H.length
  simp only [recentOf, List.length_drop]
  omega

/-- The loop prepends the compressed images of the first `i` processed
messages (i.e. of a prefix of its input list), in reverse. -/
theorem optimizeLoop_eq_take (maxT : Nat) (l : List ChatMessage) :
    ∀ (tc : Nat) (acc : List ChatMessage),
    ∃ i, optimizeLoop maxT l tc acc =
      ((l.take i).reverse.map compressMessage) ++ acc := by
  induction l with
  | nil => exact fun tc acc => ⟨0, by simp [optimizeLoop]⟩
  | cons m rest ih =>
    intro tc acc
    simp only [optimizeLoop]
    split
    · obtain ⟨i, hi⟩ := ih _ (compressMessage m :: acc)
      refine ⟨i + 1, ?_⟩
      rw [hi, List.take_succ_cons, List.reverse_cons, List.map_append,
        List.append_assoc]
      rfl
    · exact ⟨0, by simp⟩

/-- What the loop adds in front of its accumulator is empty or fits the
budget together with the incoming token count. -/
theorem optimizeLoop_budget (maxT : Nat) (l : List ChatMessage) :
    ∀ (tc : Nat) (acc : List ChatMessage),
    ∃ pre, optimizeLoop maxT l tc acc = pre ++ acc ∧
      (pre = [] ∨ sumTokens pre + tc ≤ maxT) := by
  induction l with
  | nil => exact fun tc acc => ⟨[], by simp [optimizeLoop]⟩
  | cons m rest ih =>
    intro tc acc
    simp only [optimizeLoop]
    split
    · rename_i hle
      obtain ⟨pre, hpre, hsum⟩ := ih _ (compressMessage m :: acc)
      refine ⟨pre ++ [compressMessage m], ?_, Or.inr ?_⟩
      · rw [hpre, List.append_assoc]; rfl
      · rw [sumTokens_append, sumTokens_cons, sumTokens_nil]
        rcases hsum with h | h
        · subst h
          rw [sumTokens_nil]
          omega
        · omega
    · exact ⟨[], by simp⟩

/-- The loop's result stays within the budget unless it returns the
accumulator untouched. -/
theorem optimizeLoop_total (maxT : Nat) (l : List ChatMessage) :
    ∀ (tc : Nat) (acc : List ChatMessage), sumTokens acc ≤ tc →
    sumTokens (optimizeLoop maxT l tc acc) ≤ maxT ∨
      optimizeLoop maxT l tc acc = acc := by
  induction l with
  | nil => exact fun tc acc _ => Or.inr (by simp [optimizeLoop])
  | cons m rest ih =>
    intro tc acc hacc
    simp only [optimizeLoop]
    split
    · rename_i hle
      rcases ih (tc + estimateTokens (compressMessage m).content)
        (compressMessage m :: acc)
        (by rw [sumTokens_cons]; omega) with h | h
      · exact Or.inl h
      · rw [h, sumTokens_cons]
        left
        omega
    · exact Or.inr rfl

/-! ## Claims about the optimizer and the compressor -/

def optsC2 : ChatOptions := ⟨1, 1, 0⟩

def histC2 : List ChatMessage :=
  [⟨Role.user, "aaaaaaaa"⟩, ⟨Role.user, "bbbbbbbb"⟩]

/-- C2, counterexample: with a budget of one token and one always-kept
recent message, a history of two eight-character messages optimizes to
just the recent message — its two estimated tokens exceed the budget, and
the result is not the full history either. -/
theorem c2_counterexample :
    optimizeHistory optsC2 histC2 = [⟨Role.user, "bbbbbbbb"⟩] ∧
    ¬ (sumTokens (optimizeHistory optsC2 histC2) ≤ effMaxHistoryTokens optsC2 ∨
       optimizeHistory optsC2 histC2 = histC2) := by decide

/-- C2 (amended): the optimizer's output fits the token budget, or is the
full history (when already under budget with nothing older), or is exactly
the always-keep-recent window (whose tokens are counted but which is
returned even when it alone exceeds the budget). -/
theorem c2_optimizeHistory_budget (o : ChatOptions) (H : List ChatMessage) :
    sumTokens (optimizeHistory o H) ≤ effMaxHistoryTokens o ∨
    optimizeHistory o H = H ∨
    optimizeHistory o H = recentOf o H := by
  unfold optimizeHistory
  split
  · exact Or.inl (by rw [sumTokens_nil]; exact Nat.zero_le _)
  · dsimp only
    split
    · exact Or.inr (Or.inl rfl)
    · rcases optimizeLoop_total (effMaxHistoryTokens o) (olderOf o H).reverse
        (sumTokens (recentOf o H)) (recentOf o H) (le_refl _) with h | h
      · exact Or.inl h
      · exact Or.inr (Or.inr h)

/-- C3: in the optimizer's output, the older (compressed) part — the
entries preceding the always-keep-recent suffix — has estimated token
sum within the budget, or is empty. -/
theorem c3_older_part_within_budget (o : ChatOptions) (H : List ChatMessage) :
    sumTokens ((optimizeHistory o H).take
        ((optimizeHistory o H).length - min (effAlwaysKeepRecent o) H.length))
      ≤ effMaxHistoryTokens o ∨
    (optimizeHistory o H).take
        ((optimizeHistory o H).length - min (effAlwaysKeepRecent o) H.length)
      = [] := by
  unfold optimizeHistory
  split
  · exact Or.inr (by simp)
  · dsimp only
    split
    · rename_i hfast
      right
      have holder : (olderOf o H).length = 0 := hfast.2
      have : H.length - min (effAlwaysKeepRecent o) H.length = 0 := by
        have := min_le_right (effAlwaysKeepRecent o) H.length
        simp only [olderOf, List.length_take] at holder
        omega
      rw [this]
      simp
    · obtain ⟨pre, hpre, hsum⟩ := optimizeLoop_budget (effMaxHistoryTokens o)
        (olderOf o H).reverse (sumTokens (recentOf o H)) (recentOf o H)
      rw [hpre]
      have hlen : (pre ++ recentOf o H).length - min (effAlwaysKeepRecent o) H.length
          = pre.length := by
        rw [List.length_append, length_recentOf]
        omega
      rw [hlen, List.take_left]
      rcases hsum with h | h
      · exact Or.inr h
      · exact Or.inl (by omega)

/-- C4: the optimizer's output is the compressed image of a suffix of the
older messages followed by the always-keep-recent suffix of the history,
verbatim and in chronological order. -/
theorem c4_recency_guarantee (o : ChatOptions) (H : List ChatMessage) :
    ∃ k, optimizeHistory o H =
      ((olderOf o H).drop k).map compressMessage ++ recentOf o H := by
  unfold optimizeHistory
  split
  · rename_i hnil
    refine ⟨0, ?_⟩
    have : H = [] := List.length_eq_zero.mp hnil
    subst this
    simp [olderOf, recentOf]
  · dsimp only
    split
    · rename_i hfast
      refine ⟨0, ?_⟩
      have holder : olderOf o H = [] := List.length_eq_zero.mp hfast.2
      conv_lhs => rw [← olderOf_append_recentOf o H]
      rw [holder]
      simp
    · obtain ⟨i, hi⟩ := optimizeLoop_eq_take (effMaxHistoryTokens o)
        (olderOf o H).reverse (sumTokens (recentOf o H)) (recentOf o H)
      refine ⟨(olderOf o H).length - i, ?_⟩
      rw [hi, List.take_reverse, List.reverse_reverse]

def sysMsgC5 : ChatMessage := ⟨Role.system, "hi"⟩

/-- C5, counterexample: a system message does not keep its role — the
compressor's else-branch stamps every non-user message as `assistant`. -/
theorem c5_counterexample :
    (compressMessage sysMsgC5).role = Role.assistant ∧
    Role.assistant ≠ Role.system := by decide

/-- C5 (amended): `compressMessage` preserves the role of user and
assistant messages; a system message comes back with role `assistant`. -/
theorem c5_compressMessage_role (m : ChatMessage) (h : m.role ≠ Role.system) :
    (compressMessage m).role = m.role := by
  cases hm : m.role
  · simp [compressMessage, hm]
  · simp [compressMessage, hm]
  · exact absurd hm h

/-- C5 witness: the amended theorem applied to a concrete user message. -/
theorem c5_compressMessage_role_witness :
    (⟨Role.user, "hello"⟩ : ChatMessage).role ≠ Role.system ∧
    (compressMessage ⟨Role.user, "hello"⟩).role =
      (⟨Role.user, "hello"⟩ : ChatMessage).role :=
  ⟨by decide, c5_compressMessage_role ⟨Role.user, "hello"⟩ (by decide)⟩

theorem strLen_append (a b : String) :
    strLen (a ++ b) = strLen a + strLen b := by
  simp [strLen, String.data_append]

theorem strLen_strTake_le (s : String) (n : Nat) :
    strLen (strTake s n) ≤ strLen s := by
  simp only [strTake, strLen, List.length_take]
  exact min_le_right _ _

theorem firstSentence_strLen_le (s fs : String)
    (h : firstSentence s = some fs) : strLen fs ≤ strLen s := by
  unfold firstSentence at h
  split at h
  · split at h
    · exact absurd h (by simp)
    · injection h with h'
      rw [← h']
      simp only [strLen, List.length_take]
      exact min_le_right _ _
  · exact absurd h (by simp)

/-- C7: compression does not lengthen a user message, and an assistant
message compresses to at most the cleaned content's length plus the three
characters of the appended ellipsis. -/
theorem c7_compression_monotonicity (m : ChatMessage) :
    (m.role = Role.user →
      strLen (compressMessage m).content ≤ strLen m.content) ∧
    (m.role = Role.assistant →
      strLen (compressMessage m).content ≤
        strLen (cleanedContent m.content) + 3) := by
  constructor
  · intro hu
    rw [compressMessage, if_pos hu]
    exact strLen_strTake_le _ _
  · intro ha
    rw [compressMessage, if_neg (by rw [ha]; exact fun hc => Role.noConfusion hc)]
    simp only
    generalize hq : (match firstSentence (cleanedContent m.content) with
        | some fs => fs
        | none => strTake (cleanedContent m.content) COMPRESSED_MSG_LENGTH) = q
    have hcomp : strLen q ≤ strLen (cleanedContent m.content) := by
      rw [← hq]
      cases hfs : firstSentence (cleanedContent m.content) with
      | some fs => exact firstSentence_strLen_le _ _ hfs
      | none => exact strLen_strTake_le _ _
    rw [strLen_append]
    split
    · have h3 : strLen "..." = 3 := by decide
      omega
    · have h0 : strLen "" = 0 := by decide
      omega

/-- C7 witness: both bounds at concrete messages. -/
theorem c7_compression_monotonicity_witness :
    strLen (compressMessage ⟨Role.user, "hello"⟩).content ≤
      strLen (⟨Role.user, "hello"⟩ : ChatMessage).content ∧
    strLen (compressMessage ⟨Role.assistant, "Hi there. More."⟩).content ≤
      strLen (cleanedContent (⟨Role.assistant, "Hi there. More."⟩ : ChatMessage).content) + 3 :=
  ⟨(c7_compression_monotonicity ⟨Role.user, "hello"⟩).1 rfl,
   (c7_compression_monotonicity ⟨Role.assistant, "Hi there. More."⟩).2 rfl⟩

/-! ## JavaScript values

A model of the JavaScript values the widget's data paths handle.  Numbers
carry the mantissa and decimal exponent of their literal (`num m e` stands
for `m · 10^e`); the claims below never depend on floating-point rounding,
and truthiness of a number is `m ≠ 0` (denormal underflow to `0` for
astronomically small exponents is ignored). -/

mutual

inductive JsValue where
  | undefined
  | null
  | bool (b : Bool)
  | num (m : Int) (e : Int)
  | str (s : String)
  | arr (elems : JsElems)
  | obj (fields : JsFields)
deriving DecidableEq

inductive JsElems where
  | nil
  | cons (head : JsValue) (tail : JsElems)
deriving DecidableEq

inductive JsFields where
  | nil
  | cons (key : String) (val : JsValue) (tail : JsFields)
deriving DecidableEq

end

/-- Array value from a Lean list. -/
def jsElemsOf : List JsValue → JsElems
  | [] => .nil
  | x :: xs => .cons x (jsElemsOf xs)

/-- Object value from a Lean association list. -/
def jsFieldsOf : List (String × JsValue) → JsFields
  | [] => .nil
  | (k, v) :: xs => .cons k v (jsFieldsOf xs)

def jsArr (l : List JsValue) : JsValue := .arr (jsElemsOf l)

def jsObj (l : List (String × JsValue)) : JsValue := .obj (jsFieldsOf l)

def jsElemsLength : JsElems → Nat
  | .nil => 0
  | .cons _ tl => jsElemsLength tl + 1

/-- Element at an index, `undefined` past the end. -/
def jsElemsGet : JsElems → Nat → JsValue
  | .nil, _ => .undefined
  | .cons x _, 0 => x
  | .cons _ tl, n + 1 => jsElemsGet tl n

/-- First binding for a key. -/
def jsFieldsLookup : JsFields → String → Option JsValue
  | .nil, _ => none
  | .cons k v tl, key => if k = key then some v else jsFieldsLookup tl key

def jsTruthy : JsValue → Bool
  | .undefined => false
  | .null => false
  | .bool b => b
  | .num m _ => m ≠ 0
  | .str s => s ≠ ""
  | .arr _ => true
  | .obj _ => true

def jsTypeof : JsValue → String
  | .undefined => "undefined"
  | .null => "object"
  | .bool _ => "boolean"
  | .num _ _ => "number"
  | .str _ => "string"
  | .arr _ => "object"
  | .obj _ => "object"

/-- The canonical array-index reading of a property key (all digits, no
leading zero except `"0"` itself). -/
def canonicalIndex? (k : String) : Option Nat :=
  if k.data ≠ [] ∧ k.data.all Char.isDigit ∧
      (k.data.head? = some '0' → k.data = ['0']) then
    some (digitsToNat k.data)
  else none

/-- Property read `v[k]`.  On objects: first binding for the key, else
`undefined`.  On arrays and strings: element/character at a canonical
index (an array's `length` and a string's methods are never read by the
modelled code).  On booleans and numbers: `undefined` (boxed primitives
have no own properties the code reads).  On `null`/`undefined` a real
property read throws; every read performed by the modelled code is behind
a truthiness guard, so those cases are never reached (the total fallback
returns `undefined`). -/
def jsGetProp : JsValue → String → JsValue
  | .obj fields, k =>
    match jsFieldsLookup fields k with
    | some v => v
    | none => .undefined
  | .arr items, k =>
    match canonicalIndex? k with
    | some i => jsElemsGet items i
    | none => .undefined
  | .str s, k =>
    match canonicalIndex? k with
    | some i =>
      match s.data.get? i with
      | some c => .str ⟨[c]⟩
      | none => .undefined
    | none => .undefined
  | _, _ => .undefined

/-- JavaScript `a || b`. -/
def jsOrVal (a b : JsValue) : JsValue := if jsTruthy a then a else b

/-! ## `JSON.parse`

A recursive-descent parser for the JSON grammar (ECMA-404), as
`JSON.parse` accepts it: the six value forms, `\uXXXX` and the short
escapes in strings, no raw control characters in strings, no leading
zeros or bare fractions in numbers.  A `\u` escape denoting a lone
surrogate maps to the replacement of `Char.ofNat` (no claim touches
surrogates).  Fuel is twice the character count plus a constant: every
two recursive steps consume at least one character. -/

def jsonWsChar (c : Char) : Bool := c = ' ' || c = '\t' || c = '\n' || c = '\r'

def skipWs (l : List Char) : List Char := l.dropWhile jsonWsChar

def hexVal (c : Char) : Option Nat :=
  if '0' ≤ c ∧ c ≤ '9' then some (c.toNat - 48)
  else if 'a' ≤ c ∧ c ≤ 'f' then some (c.toNat - 87)
  else if 'A' ≤ c ∧ c ≤ 'F' then some (c.toNat - 55)
  else none

def escChar (e : Char) : Option Char :=
  if e = '"' then some '"'
  else if e = '\\' then some '\\'
  else if e = '/' then some '/'
  else if e = 'b' then some (Char.ofNat 8)
  else if e = 'f' then some (Char.ofNat 12)
  else if e = 'n' then some '\n'
  else if e = 'r' then some '\r'
  else if e = 't' then some '\t'
  else none

/-- String body after the opening quote: content and remainder after the
closing quote. -/
def parseJStringF : Nat → List Char → Option (List Char × List Char)
  | 0, _ => none
  | fuel + 1, l =>
    match l with
    | [] => none
    | c :: rest =>
      if c = '"' then some ([], rest)
      else if c = '\\' then
        match rest with
        | 'u' :: h1 :: h2 :: h3 :: h4 :: rest2 =>
          match hexVal h1, hexVal h2, hexVal h3, hexVal h4 with
          | some a, some b, some c3, some d =>
            (parseJStringF fuel rest2).map
              (fun p => (Char.ofNat (((a * 16 + b) * 16 + c3) * 16 + d) :: p.1, p.2))
          | _, _, _, _ => none
        | e :: rest2 =>
          match escChar e with
          | some ec => (parseJStringF fuel rest2).map (fun p => (ec :: p.1, p.2))
          | none => none
        | [] => none
      else if c.toNat < 32 then none
      else (parseJStringF fuel rest).map (fun p => (c :: p.1, p.2))

/-- JSON number: mantissa and decimal exponent, plus the remainder. -/
def parseJNumber (l : List Char) : Option ((Int × Int) × List Char) :=
  let (neg, l1) := match l with | '-' :: t => (true, t) | _ => (false, l)
  match l1 with
  | [] => none
  | c :: _ =>
    if ¬ c.isDigit then none
    else
      let intDigits := if c = '0' then ['0'] else l1.takeWhile Char.isDigit
      let l2 := l1.drop intDigits.length
      let fracPart : Option (List Char × List Char) :=
        match l2 with
        | '.' :: t =>
          let fd := t.takeWhile Char.isDigit
          if fd = [] then none else some (fd, t.drop fd.length)
        | _ => some ([], l2)
      match fracPart with
      | none => none
      | some (fracDigits, l3) =>
        let expPart : Option (Int × List Char) :=
          match l3 with
          | e :: t =>
            if e = 'e' ∨ e = 'E' then
              let (eneg, t1) := match t with
                | '+' :: t2 => (false, t2)
                | '-' :: t2 => (true, t2)
                | _ => (false, t)
              let ed := t1.takeWhile Char.isDigit
              if ed = [] then none
              else some ((if eneg then -(digitsToNat ed : Int)
                          else (digitsToNat ed : Int)), t1.drop ed.length)
            else some (0, l3)
          | [] => some (0, l3)
        match expPart with
        | none => none
        | some (ev, l4) =>
          let mant : Int := digitsToNat (intDigits ++ fracDigits)
          some (((if neg then -mant else mant),
                 ev - (fracDigits.length : Int)), l4)

def lbraceC : Char := Char.ofNat 123
def rbraceC : Char := Char.ofNat 125

mutual

def parseValueF : Nat → List Char → Option (JsValue × List Char)
  | 0, _ => none
  | fuel + 1, l =>
    match skipWs l with
    | [] => none
    | c :: rest =>
      if c = '"' then
        (parseJStringF (rest.length + 1) rest).map (fun p => (.str ⟨p.1⟩, p.2))
      else if c = lbraceC then
        match skipWs rest with
        | d :: rest2 =>
          if d = rbraceC then some (jsObj [], rest2)
          else (parseMembersF fuel (d :: rest2)).map (fun p => (jsObj p.1, p.2))
        | [] => none
      else if c = lbrk then
        match skipWs rest with
        | d :: rest2 =>
          if d = rbrk then some (jsArr [], rest2)
          else (parseItemsF fuel (d :: rest2)).map (fun p => (jsArr p.1, p.2))
        | [] => none
      else
        match c :: rest with
        | 't' :: 'r' :: 'u' :: 'e' :: r => some (.bool true, r)
        | 'f' :: 'a' :: 'l' :: 's' :: 'e' :: r => some (.bool false, r)
        | 'n' :: 'u' :: 'l' :: 'l' :: r => some (.null, r)
        | l2 => (parseJNumber l2).map (fun p => (.num p.1.1 p.1.2, p.2))

/-- Object members, from the first key onwards (not immediately `}`). -/
def parseMembersF : Nat → List Char → Option (List (String × JsValue) × List Char)
  | 0, _ => none
  | fuel + 1, l =>
    match skipWs l with
    | '"' :: rest =>
      match parseJStringF (rest.length + 1) rest with
      | none => none
      | some (key, rest2) =>
        match skipWs rest2 with
        | ':' :: rest3 =>
          match parseValueF fuel rest3 with
          | none => none
          | some (v, rest4) =>
            match skipWs rest4 with
            | ',' :: rest5 =>
              (parseMembersF fuel rest5).map
                (fun p => ((⟨key⟩, v) :: p.1, p.2))
            | d :: rest5 =>
              if d = rbraceC then some ([(⟨key⟩, v)], rest5) else none
            | [] => none
        | _ => none
    | _ => none

/-- Array items, from the first item onwards (not immediately `]`). -/
def parseItemsF : Nat → List Char → Option (List JsValue × List Char)
  | 0, _ => none
  | fuel + 1, l =>
    match parseValueF fuel l with
    | none => none
    | some (v, rest) =>
      match skipWs rest with
      | ',' :: rest2 =>
        (parseItemsF fuel rest2).map (fun p => (v :: p.1, p.2))
      | d :: rest2 =>
        if d = rbrk then some ([v], rest2) else none
      | [] => none

end

def parseJson (s : String) : Option JsValue :=
  match parseValueF (2 * s.data.length + 4) s.data with
  | some (v, rest) => if skipWs rest = [] then some v else none
  | none => none

/-! ## Session restore (`ChatState.restore`) -/

inductive JsError where
  | syntaxError
  | typeError
deriving DecidableEq

/-- The persisted slice of the widget state
(`{history, hasInteracted, traceId}`). -/
structure ChatStateModel where
  history : JsValue
  hasInteracted : JsValue
  traceId : JsValue

def initialChatState : ChatStateModel := ⟨jsArr [], .bool false, .null⟩

/-- Method `ChatState.restore`: read the snapshot; a missing (or falsy empty)
snapshot leaves the state alone and reports `false`; otherwise
`JSON.parse` runs with no surrounding `try`/`catch`, so a malformed
snapshot raises `SyntaxError` out of `restore` (and a snapshot parsing to
`null` raises `TypeError` at the `state.history` read). -/
def restore (saved : Option String) (st : ChatStateModel) :
    Except JsError (Bool × ChatStateModel) :=
  match saved with
  | none => .ok (false, st)
  | some s =>
    if s = "" then .ok (false, st)
    else
      match parseJson s with
      | none => .error .syntaxError
      | some .null => .error .typeError
      | some state =>
        .ok (true,
          { history := jsOrVal (jsGetProp state "history") (jsArr []),
            hasInteracted := jsOrVal (jsGetProp state "hasInteracted") (.bool false),
            traceId := jsOrVal (jsGetProp state "traceId") .null })

def historyLength (st : ChatStateModel) : Nat :=
  match st.history with
  | .arr l => jsElemsLength l
  | _ => 0

/-! ## Claims about the history store -/

/-- C1, counterexample: restoring the malformed snapshot `"{not json"`
does not return `false` — `JSON.parse` raises and, with no `try`/`catch`
in `restore`, the exception escapes. -/
theorem c1_counterexample :
    restore (some "\x7bnot json") initialChatState =
      Except.error JsError.syntaxError := by rfl

/-- C1 (amended): an absent snapshot is treated as absent — `restore`
returns `false` and leaves the (empty) state untouched; but a
corrupt/unparseable snapshot is not: `JSON.parse` throws and the
exception escapes `restore`, so initialization does fail on bad session
data. -/
theorem c1_restore_absent_or_raises (st : ChatStateModel) (s : String)
    (hs : s ≠ "") (hp : parseJson s = none) :
    restore none st = Except.ok (false, st) ∧
    restore (some s) st = Except.error JsError.syntaxError := by
  refine ⟨rfl, ?_⟩
  unfold restore
  dsimp only
  rw [if_neg hs, hp]

/-- C1 witness: the amended theorem at the snapshot `"{not json"`. -/
theorem c1_restore_absent_or_raises_witness :
    restore none initialChatState = Except.ok (false, initialChatState) ∧
    restore (some "\x7bnot json") initialChatState =
      Except.error JsError.syntaxError :=
  c1_restore_absent_or_raises initialChatState "\x7bnot json"
    (by decide) (by rfl)

/-- A stored snapshot holding two messages. -/
def snapC6 : String :=
  "\x7b\"history\":[\x7b\"role\":\"user\",\"content\":\"a\"\x7d,\x7b\"role\":\"user\",\"content\":\"b\"\x7d],\"hasInteracted\":true,\"traceId\":null\x7d"

/-- The state `restore` produces from `snapC6`. -/
def restoredC6 : ChatStateModel :=
  ⟨jsArr [jsObj [("role", .str "user"), ("content", .str "a")],
          jsObj [("role", .str "user"), ("content", .str "b")]],
   .bool true, .null⟩

def optsCap1 : ChatOptions := ⟨0, 0, 1⟩

/-- C6, counterexample: `restore` replays a snapshot verbatim and never
trims, so with `maxHistoryMessages = 1` restoring a two-message snapshot
leaves the history above the cap. -/
theorem c6_counterexample :
    restore (some snapC6) initialChatState = Except.ok (true, restoredC6) ∧
    effMaxHistoryMessages optsCap1 < historyLength restoredC6 :=
  ⟨by rfl, by decide⟩

/-- C6 (amended): after an append followed by `trimHistory` the history
holds at most `maxHistoryMessages` entries and consists of the most
recent entries in original order; `restore`, however, replays the
snapshot as-is, so a snapshot exceeding the cap leaves the history
exceeding it. -/
theorem c6_trim_invariant (o : ChatOptions) (h : List ChatMessage)
    (m : ChatMessage) :
    (trimHistory o (h ++ [m])).length ≤ effMaxHistoryMessages o ∧
    trimHistory o (h ++ [m]) =
      (h ++ [m]).drop ((h ++ [m]).length - effMaxHistoryMessages o) := by
  unfold trimHistory
  split
  · rename_i hgt
    refine ⟨?_, rfl⟩
    rw [List.length_drop]
    omega
  · rename_i hle
    rw [Nat.not_lt] at hle
    have h0 : (h ++ [m]).length - effMaxHistoryMessages o = 0 := by omega
    rw [h0, List.drop_zero]
    exact ⟨hle, rfl⟩

/-! ## Source validation (`ChatValidators.validateSources`) -/

mutual

/-- JavaScript `String(v)`.  Arrays join their elements with `","` (`null` and
`undefined` elements become empty), objects print as `[object Object]`;
number formatting is abridged to mantissa/exponent (in the validator the
conversion is only ever applied to values that passed its string-type
filter, so only the `str` arm is exercised). -/
def jsToString : JsValue → String
  | .undefined => "undefined"
  | .null => "null"
  | .bool true => "true"
  | .bool false => "false"
  | .num m e => toString m ++ (if e = 0 then "" else "e" ++ toString e)
  | .str s => s
  | .obj _ => "[object Object]"
  | .arr xs => jsArrJoin xs

def jsArrJoin : JsElems → String
  | .nil => ""
  | .cons x .nil =>
    (match x with | .null => "" | .undefined => "" | v => jsToString v)
  | .cons x tl =>
    (match x with | .null => "" | .undefined => "" | v => jsToString v) ++
      "," ++ jsArrJoin tl

end

/-- The filter of `validateSources`: drop entries that are not truthy
objects, whose `source` (when a truthy object) has a truthy non-string
`name` or `description`, or whose `document`/`metadata` is truthy and not
an object. -/
def sourceKeep (sd : JsValue) : Bool :=
  if !jsTruthy sd || jsTypeof sd != "object" then false
  else
    let src := jsGetProp sd "source"
    if (jsTruthy src && jsTypeof src == "object") &&
        (jsTruthy (jsGetProp src "name") &&
         jsTypeof (jsGetProp src "name") != "string") then false
    else if (jsTruthy src && jsTypeof src == "object") &&
        (jsTruthy (jsGetProp src "description") &&
         jsTypeof (jsGetProp src "description") != "string") then false
    else if jsTruthy (jsGetProp sd "document") &&
        jsTypeof (jsGetProp sd "document") != "object" then false
    else if jsTruthy (jsGetProp sd "metadata") &&
        jsTypeof (jsGetProp sd "metadata") != "object" then false
    else true

/-- The map of `validateSources`: a clean copy with only the expected
fields, name and description length-capped. -/
def sourceSanitize (sd : JsValue) : JsValue :=
  let src := jsGetProp sd "source"
  let base : List (String × JsValue) :=
    if jsTruthy src && jsTypeof src == "object" then
      [("source", jsObj
          [("name", .str (strTake
              (jsToString (jsOrVal (jsGetProp src "name") (.str "")))
              SOURCE_NAME_LENGTH)),
           ("description",
            if jsTruthy (jsGetProp src "description") then
              .str (strTake (jsToString (jsGetProp src "description"))
                SOURCE_DESC_LENGTH)
            else .str "")])]
    else []
  let base1 := if jsTruthy (jsGetProp sd "document") then
      base ++ [("document", jsGetProp sd "document")]
    else base
  let base2 := if jsTruthy (jsGetProp sd "metadata") then
      base1 ++ [("metadata", jsGetProp sd "metadata")]
    else base1
  jsObj base2

def jsElemsToList : JsElems → List JsValue
  | .nil => []
  | .cons x tl => x :: jsElemsToList tl

/-- Method `ChatValidators.validateSources`: non-arrays yield `[]`, otherwise
filter then sanitize. -/
def validateSources (sources : JsValue) : List JsValue :=
  match sources with
  | .arr xs => ((jsElemsToList xs).filter sourceKeep).map sourceSanitize
  | _ => []

theorem jsGetProp_obj_head (k : String) (v : JsValue)
    (t : List (String × JsValue)) :
    jsGetProp (jsObj ((k, v) :: t)) k = v := by
  simp [jsObj, jsFieldsOf, jsGetProp, jsFieldsLookup]

theorem jsGetProp_obj_tail (k k2 : String) (v : JsValue)
    (t : List (String × JsValue)) (h : k2 ≠ k) :
    jsGetProp (jsObj ((k2, v) :: t)) k = jsGetProp (jsObj t) k := by
  simp [jsObj, jsFieldsOf, jsGetProp, jsFieldsLookup, h]

theorem jsGetProp_obj_nil (k : String) :
    jsGetProp (jsObj []) k = .undefined := rfl

theorem strLen_strTake_le_cap (s : String) (n : Nat) :
    strLen (strTake s n) ≤ n := by
  simp only [strTake, strLen]
  exact List.length_take_le _ _

/-- The shape of a sanitized entry: an object; if it carries a `source`
at all, that source is an object holding a string `name` of at most
`SOURCE_NAME_LENGTH` characters and a string `description` of at most
`SOURCE_DESC_LENGTH` characters. -/
theorem sourceSanitize_shape (x : JsValue) :
    jsTypeof (sourceSanitize x) = "object" ∧
    (jsGetProp (sourceSanitize x) "source" ≠ .undefined →
      ∃ nm ds, jsGetProp (jsGetProp (sourceSanitize x) "source") "name" = .str nm ∧
        jsGetProp (jsGetProp (sourceSanitize x) "source") "description" = .str ds ∧
        strLen nm ≤ SOURCE_NAME_LENGTH ∧ strLen ds ≤ SOURCE_DESC_LENGTH) := by
  unfold sourceSanitize
  dsimp only
  by_cases hsrc : (jsTruthy (jsGetProp x "source") &&
      jsTypeof (jsGetProp x "source") == "object") = true
  · -- a source object is present and sanitized
    simp only [if_pos hsrc]
    split <;> split <;>
    · refine ⟨rfl, fun _ => ?_⟩
      refine ⟨strTake
          (jsToString (jsOrVal (jsGetProp (jsGetProp x "source") "name") (.str "")))
          SOURCE_NAME_LENGTH,
        (if jsTruthy (jsGetProp (jsGetProp x "source") "description") then
          strTake (jsToString (jsGetProp (jsGetProp x "source") "description"))
            SOURCE_DESC_LENGTH
        else ""), ?_, ?_, strLen_strTake_le_cap _ _, ?_⟩
      · try simp only [List.append_assoc, List.cons_append, List.nil_append]
        rw [jsGetProp_obj_head, jsGetProp_obj_head]
      · try simp only [List.append_assoc, List.cons_append, List.nil_append]
        rw [jsGetProp_obj_head, jsGetProp_obj_tail _ _ _ _ (by decide),
          jsGetProp_obj_head]
        exact (apply_ite JsValue.str _ _ _).symm
      · split
        · exact strLen_strTake_le_cap _ _
        · decide
  · -- no source object: the sanitized entry has no `source` field
    simp only [if_neg hsrc]
    split <;> split <;>
    · constructor
      · rfl
      · intro hne
        exfalso
        apply hne
        try simp only [List.append_assoc, List.cons_append, List.nil_append]
        first
        | exact jsGetProp_obj_nil _
        | rw [jsGetProp_obj_tail _ _ _ _ (by decide)]
          first
          | exact jsGetProp_obj_nil _
          | rw [jsGetProp_obj_tail _ _ _ _ (by decide)]
            exact jsGetProp_obj_nil _

def srcEntryC10 : JsValue := jsObj [("source", jsObj [("name", .str "n")])]

def sanEntryC10 : JsValue :=
  jsObj [("source", jsObj [("name", .str "n"), ("description", .str "")])]

/-- The filter condition of `validateSources`, as a plain conjunction of
the negated removal conditions: an entry is kept exactly when it is a
truthy object, its `source` is not a truthy object carrying a truthy
non-string `name`, nor one carrying a truthy non-string `description`,
its `document` is not truthy-and-non-object, and its `metadata` is not
truthy-and-non-object.  In particular a falsy (absent, `0`, `""`, …)
`name` or `description` never causes removal. -/
theorem sourceKeep_iff (x : JsValue) :
    sourceKeep x = true ↔
      (jsTruthy x = true ∧ jsTypeof x = "object" ∧
       ¬(jsTruthy (jsGetProp x "source") = true ∧
         jsTypeof (jsGetProp x "source") = "object" ∧
         jsTruthy (jsGetProp (jsGetProp x "source") "name") = true ∧
         jsTypeof (jsGetProp (jsGetProp x "source") "name") ≠ "string") ∧
       ¬(jsTruthy (jsGetProp x "source") = true ∧
         jsTypeof (jsGetProp x "source") = "object" ∧
         jsTruthy (jsGetProp (jsGetProp x "source") "description") = true ∧
         jsTypeof (jsGetProp (jsGetProp x "source") "description") ≠ "string") ∧
       ¬(jsTruthy (jsGetProp x "document") = true ∧
         jsTypeof (jsGetProp x "document") ≠ "object") ∧
       ¬(jsTruthy (jsGetProp x "metadata") = true ∧
         jsTypeof (jsGetProp x "metadata") ≠ "object")) := by
  unfold sourceKeep
  dsimp only
  split_ifs with h1 h2 h3 h4 h5
  · refine iff_of_false (by decide) ?_
    rintro ⟨ht, hobj, -, -, -, -⟩
    rw [Bool.or_eq_true] at h1
    rcases h1 with h1 | h1
    · rw [Bool.not_eq_true', ht] at h1
      exact Bool.noConfusion h1
    · rw [bne_iff_ne] at h1
      exact h1 hobj
  · refine iff_of_false (by decide) ?_
    rintro ⟨-, -, hno, -, -, -⟩
    simp only [Bool.and_eq_true, beq_iff_eq, bne_iff_ne] at h2
    exact hno ⟨h2.1.1, h2.1.2, h2.2.1, h2.2.2⟩
  · refine iff_of_false (by decide) ?_
    rintro ⟨-, -, -, hno, -, -⟩
    simp only [Bool.and_eq_true, beq_iff_eq, bne_iff_ne] at h3
    exact hno ⟨h3.1.1, h3.1.2, h3.2.1, h3.2.2⟩
  · refine iff_of_false (by decide) ?_
    rintro ⟨-, -, -, -, hno, -⟩
    simp only [Bool.and_eq_true, bne_iff_ne] at h4
    exact hno ⟨h4.1, h4.2⟩
  · refine iff_of_false (by decide) ?_
    rintro ⟨-, -, -, -, -, hno⟩
    simp only [Bool.and_eq_true, bne_iff_ne] at h5
    exact hno ⟨h5.1, h5.2⟩
  · refine iff_of_true rfl ?_
    simp only [Bool.or_eq_true, Bool.not_eq_true', bne_iff_ne, not_or] at h1
    simp only [Bool.and_eq_true, beq_iff_eq, bne_iff_ne, not_and] at h2 h3 h4 h5
    refine ⟨?_, ?_, ?_, ?_, ?_, ?_⟩
    · cases hb : jsTruthy x
      · exact absurd hb h1.1
      · rfl
    · by_contra hne
      exact h1.2 hne
    · rintro ⟨ha, hb, hc, hd⟩
      exact h2 ⟨ha, hb⟩ hc hd
    · rintro ⟨ha, hb, hc, hd⟩
      exact h3 ⟨ha, hb⟩ hc hd
    · rintro ⟨ha, hb⟩
      exact h4 ha hb
    · rintro ⟨ha, hb⟩
      exact h5 ha hb

/-- C10, counterexample: two concrete inputs refute the claim.  An empty
object survives validation unchanged, so the surviving entry has no
`source.name` string of at most 500 characters at all (it is
`undefined`); and an entry whose `source.name` is present but not a
string (the number `0`) is not removed — because the number is falsy it
passes the filter and is sanitized to `""`. -/
theorem c10_counterexample :
    (validateSources (jsArr [jsObj []]) = [jsObj []] ∧
      jsGetProp (jsGetProp (jsObj []) "source") "name" = JsValue.undefined) ∧
    (validateSources (jsArr [jsObj [("source", jsObj [("name", JsValue.num 0 0)])]]) =
        [jsObj [("source",
          jsObj [("name", JsValue.str ""), ("description", JsValue.str "")])]] ∧
      jsGetProp (jsGetProp (jsObj [("source", jsObj [("name", JsValue.num 0 0)])])
          "source") "name" = JsValue.num 0 0 ∧
      jsTypeof (JsValue.num 0 0) ≠ "string") := by decide

/-- C10 (amended): `validateSources` yields `[]` on any non-array.  An
array is filtered by `sourceKeep` and each survivor sanitized by
`sourceSanitize`, and `sourceKeep` holds exactly when none of the
removal conditions does: the entry is a truthy object, its `source` is
not a truthy object with a truthy non-string `name` nor one with a
truthy non-string `description`, and its `document` and `metadata` are
not truthy non-objects — so an entry whose `name` or `description` is
present but falsy passes the filter and is sanitized to a string.  Every
surviving entry is an object, and whenever it carries a `source` field
that source holds a string `name` of at most 500 characters and a string
`description` of at most 1000 characters. -/
theorem c10_validateSources (v : JsValue) :
    ((∀ xs, v ≠ .arr xs) → validateSources v = []) ∧
    (∀ xs, v = .arr xs →
      validateSources v =
        ((jsElemsToList xs).filter sourceKeep).map sourceSanitize) ∧
    (∀ x, sourceKeep x = true ↔
      (jsTruthy x = true ∧ jsTypeof x = "object" ∧
       ¬(jsTruthy (jsGetProp x "source") = true ∧
         jsTypeof (jsGetProp x "source") = "object" ∧
         jsTruthy (jsGetProp (jsGetProp x "source") "name") = true ∧
         jsTypeof (jsGetProp (jsGetProp x "source") "name") ≠ "string") ∧
       ¬(jsTruthy (jsGetProp x "source") = true ∧
         jsTypeof (jsGetProp x "source") = "object" ∧
         jsTruthy (jsGetProp (jsGetProp x "source") "description") = true ∧
         jsTypeof (jsGetProp (jsGetProp x "source") "description") ≠ "string") ∧
       ¬(jsTruthy (jsGetProp x "document") = true ∧
         jsTypeof (jsGetProp x "document") ≠ "object") ∧
       ¬(jsTruthy (jsGetProp x "metadata") = true ∧
         jsTypeof (jsGetProp x "metadata") ≠ "object"))) ∧
    ∀ e, e ∈ validateSources v →
      jsTypeof e = "object" ∧
      (jsGetProp e "source" ≠ .undefined →
        ∃ nm ds, jsGetProp (jsGetProp e "source") "name" = .str nm ∧
          jsGetProp (jsGetProp e "source") "description" = .str ds ∧
          strLen nm ≤ SOURCE_NAME_LENGTH ∧ strLen ds ≤ SOURCE_DESC_LENGTH) := by
  refine ⟨?_, ?_, sourceKeep_iff, ?_⟩
  · intro hna
    cases v with
    | arr xs => exact absurd rfl (hna xs)
    | undefined => rfl
    | null => rfl
    | bool b => rfl
    | num m e => rfl
    | str s => rfl
    | obj f => rfl
  · intro xs hv
    subst hv
    rfl
  · intro e he
    cases v with
    | arr xs =>
      simp only [validateSources, List.mem_map] at he
      obtain ⟨x, _, hx⟩ := he
      rw [← hx]
      exact sourceSanitize_shape x
    | undefined => exact absurd he (by simp [validateSources])
    | null => exact absurd he (by simp [validateSources])
    | bool b => exact absurd he (by simp [validateSources])
    | num m ex => exact absurd he (by simp [validateSources])
    | str s => exact absurd he (by simp [validateSources])
    | obj f => exact absurd he (by simp [validateSources])

def falsyNameEntryC10 : JsValue := jsObj [("source", jsObj [("name", .num 0 0)])]

/-- C10 witness: the amended theorem exercised at a non-array input, at a
concrete array (the filter/map equation), at the entry whose `name` is a
present-but-falsy non-string (it passes the filter), and at a concrete
validated entry (the capped-string shape). -/
theorem c10_validateSources_witness :
    validateSources (JsValue.str "x") = [] ∧
    validateSources (jsArr [srcEntryC10]) =
      ((jsElemsToList (jsElemsOf [srcEntryC10])).filter sourceKeep).map
        sourceSanitize ∧
    (jsTruthy falsyNameEntryC10 = true ∧ jsTypeof falsyNameEntryC10 = "object" ∧
     ¬(jsTruthy (jsGetProp falsyNameEntryC10 "source") = true ∧
       jsTypeof (jsGetProp falsyNameEntryC10 "source") = "object" ∧
       jsTruthy (jsGetProp (jsGetProp falsyNameEntryC10 "source") "name") = true ∧
       jsTypeof (jsGetProp (jsGetProp falsyNameEntryC10 "source") "name") ≠ "string") ∧
     ¬(jsTruthy (jsGetProp falsyNameEntryC10 "source") = true ∧
       jsTypeof (jsGetProp falsyNameEntryC10 "source") = "object" ∧
       jsTruthy (jsGetProp (jsGetProp falsyNameEntryC10 "source") "description") = true ∧
       jsTypeof (jsGetProp (jsGetProp falsyNameEntryC10 "source") "description") ≠ "string") ∧
     ¬(jsTruthy (jsGetProp falsyNameEntryC10 "document") = true ∧
       jsTypeof (jsGetProp falsyNameEntryC10 "document") ≠ "object") ∧
     ¬(jsTruthy (jsGetProp falsyNameEntryC10 "metadata") = true ∧
       jsTypeof (jsGetProp falsyNameEntryC10 "metadata") ≠ "object")) ∧
    (jsTypeof sanEntryC10 = "object" ∧
      (jsGetProp sanEntryC10 "source" ≠ .undefined →
        ∃ nm ds, jsGetProp (jsGetProp sanEntryC10 "source") "name" = .str nm ∧
          jsGetProp (jsGetProp sanEntryC10 "source") "description" = .str ds ∧
          strLen nm ≤ SOURCE_NAME_LENGTH ∧ strLen ds ≤ SOURCE_DESC_LENGTH)) :=
  ⟨(c10_validateSources (JsValue.str "x")).1
      (fun xs h => JsValue.noConfusion h),
   (c10_validateSources (jsArr [srcEntryC10])).2.1 (jsElemsOf [srcEntryC10]) rfl,
   ((c10_validateSources (jsArr [srcEntryC10])).2.2.1 falsyNameEntryC10).mp
      (by decide),
   (c10_validateSources (jsArr [srcEntryC10])).2.2.2 sanEntryC10 (by decide)⟩

/-! ## Citation rendering (`MessageRenderer.renderCitations`)

The renderer works on the message bubble's HTML string and the (validated)
source records.  A `SourceRec` models a record whose `source` object is
present: the code reads `sourceData.source.name` unconditionally whenever
one of the record's document fragments matches, so a record without a
`source` would throw there; `name`, `description`, `document` and
`metadata` are arbitrary JavaScript values. -/

structure SourceRec where
  name : JsValue
  description : JsValue
  document : JsValue
  metadata : JsValue

def quoteChar : Char := Char.ofNat 39

/-- Method `ChatValidators.escapeHtml`, per character.  The source applies five
sequential global replaces (`&`, `<`, `>`, `"`, `'`); since no
replacement string contains a character replaced by a later pass, this
equals the single character-wise pass. -/
def escapeHtmlChar (c : Char) : List Char :=
  if c = '&' then ("&amp;").data
  else if c = '<' then ("&lt;").data
  else if c = '>' then ("&gt;").data
  else if c = '"' then ("&quot;").data
  else if c = quoteChar then ("&#039;").data
  else [c]

def escapeHtml (s : String) : String := ⟨(s.data.map escapeHtmlChar).flatten⟩

/-- The call of `escapeHtml` on an arbitrary value: non-strings escape to `""`. -/
def escapeHtmlJs (v : JsValue) : String :=
  match v with
  | .str s => escapeHtml s
  | _ => ""

/-- The replace `s.replace(/\s+/g, " ")`: each whitespace run becomes one space.
Fuel is the character count; each step consumes at least one character. -/
def collapseWsF : Nat → List Char → List Char
  | 0, l => l
  | _, [] => []
  | fuel + 1, c :: rest =>
    if jsIsSpace c then ' ' :: collapseWsF fuel (rest.dropWhile jsIsSpace)
    else c :: collapseWsF fuel rest

def collapseWs (s : String) : String := ⟨collapseWsF s.data.length s.data⟩

/-- The replace `s.replace(/[#*-]/g, "")`. -/
def stripSnippetChars (s : String) : String :=
  ⟨s.data.filter (fun c => !(c = '#' || c = '*' || c = '-'))⟩

/-- Splits at the first apostrophe: `some (before, after)`. -/
def splitAtQuote : List Char → Option (List Char × List Char)
  | [] => none
  | c :: rest =>
    if c = quoteChar then some ([], rest)
    else (splitAtQuote rest).map (fun p => (c :: p.1, p.2))

/-- The match `s.match(/'([^']*)'/g)` with the surrounding quotes stripped
(`match.slice(1, -1)`): the contents of consecutive quote pairs.  Fuel is
the character count; each match consumes at least two characters. -/
def quotedRunsF : Nat → List Char → List (List Char)
  | 0, _ => []
  | _, [] => []
  | fuel + 1, c :: rest =>
    if c = quoteChar then
      match splitAtQuote rest with
      | some (content, after) => content :: quotedRunsF fuel after
      | none => []
    else quotedRunsF fuel rest

def quotedRuns (s : String) : List (List Char) := quotedRunsF s.data.length s.data

def sectionJoin : List String → String
  | [] => ""
  | [x] => x
  | x :: tl => x ++ " &gt; " ++ sectionJoin tl

/-- Method `MessageRenderer._formatMetadata`: the `headings` field, when a truthy
string other than `"[]"` of the bracketed quoted-list form, yields a
`Section:` line joining the escaped quoted runs; anything else yields
nothing (the `catch` fallback for short malformed strings is unreachable —
the `typeof` guard precedes every method call, so the `try` block cannot
throw). -/
def formatMetadata (metaInfo : JsValue) : String :=
  let headings := jsGetProp metaInfo "headings"
  if jsTruthy headings ∧ headings ≠ .str "[]" then
    match headings with
    | .str s =>
      if s.data.head? = some lbrk ∧ s.data.getLast? = some rbrk then
        let runs := (quotedRuns s).map (fun r => escapeHtml ⟨r⟩)
        if runs ≠ [] then "<br><strong>Section:</strong> " ++ sectionJoin runs
        else ""
      else ""
    | _ => ""
  else ""

/-- JavaScript `citationNum.toString()`. -/
def docKeyOf (n : Nat) : String := toString n

/-- The property key a numeric index is read through
(`document[citationNum - 1]` — note `-1` for `citationNum = 0`). -/
def intKeyOf (i : Int) : String := toString i

/-- The lookup `document[docKey] || document[citationNum - 1]`. -/
def docContentFor (doc : JsValue) (n : Nat) : JsValue :=
  jsOrVal (jsGetProp doc (docKeyOf n)) (jsGetProp doc (intKeyOf ((n : Int) - 1)))

/-- The document content source `sd` resolves for citation `n`: a truthy
`document` whose lookup yields a truthy string. -/
def matchContent (sd : SourceRec) (n : Nat) : Option String :=
  if jsTruthy sd.document then
    match docContentFor sd.document n with
    | .str s => if s = "" then none else some s
    | _ => none
  else none

/-- The reference text built for citation `n` from source `sd` and its
matched document content `d`. -/
def buildReferenceText (sd : SourceRec) (n : Nat) (d : String) : String :=
  let rt := "<strong>" ++ escapeHtmlJs sd.name ++ "</strong>"
  let rt := if jsTruthy sd.description then
      rt ++ " - " ++ escapeHtmlJs sd.description
    else rt
  let rt := if jsTruthy sd.metadata ∧ jsTruthy (jsGetProp sd.metadata (docKeyOf n)) then
      rt ++ formatMetadata (jsGetProp sd.metadata (docKeyOf n))
    else rt
  let snippet := jsTrim (collapseWs (stripSnippetChars (strTake d SNIPPET_LENGTH)))
  if snippet = "" then rt
  else rt ++ "<br><em>" ++ escapeHtml snippet ++ "...</em>"

/-- The assignment `citations[n] = v`: the latest assignment wins for a key; the stored
order is irrelevant (the references section sorts the keys). -/
def citInsert (n : Nat) (v : String) (cits : List (Nat × String)) :
    List (Nat × String) :=
  (n, v) :: cits.filter (fun p => p.1 ≠ n)

def lookupCit (cits : List (Nat × String)) (n : Nat) : Option String :=
  cits.lookup n

/-- One source's pass of `_extractCitationsFromSources`: if its `document`
is truthy, visit every citation number found in the text and record a
reference for each number its document resolves. -/
def extractFromSource (nums : List Nat) (cits : List (Nat × String))
    (sd : SourceRec) : List (Nat × String) :=
  if jsTruthy sd.document then
    nums.foldl (fun acc n =>
      match matchContent sd n with
      | some d => citInsert n (buildReferenceText sd n d) acc
      | none => acc) cits
  else cits

/-- Method `_extractCitationsFromSources`: sources are visited in array order,
later assignments overwriting earlier ones. -/
def extractCitationsFromSources (sources : List SourceRec) (nums : List Nat) :
    List (Nat × String) :=
  sources.foldl (fun cits sd => extractFromSource nums cits sd) []

/-- The clickable anchor a resolved `[N]` becomes. -/
def anchorHtml (n : Nat) : String :=
  "<span class=\"citation-link\" data-citation=\"" ++ toString n ++
  "\" title=\"Click to see reference\" role=\"button\" tabindex=\"0\" aria-label=\"View reference " ++
  toString n ++ "\">[" ++ toString n ++ "]</span>"

/-- The final replace pass (`content.replace(/\[(\d+)\]/g, ...)`): a
marker whose parsed number has a truthy recorded reference becomes an
anchor; any other marker — and all other text — stays as it is. -/
def renderTok (cits : List (Nat × String)) : CTok → List Char
  | .chr c => [c]
  | .marker ds =>
    match lookupCit cits (digitsToNat ds) with
    | some rt =>
      if rt ≠ "" then (anchorHtml (digitsToNat ds)).data
      else ctokText (.marker ds)
    | none => ctokText (.marker ds)

def rewriteCitationMarkers (content : String)
    (cits : List (Nat × String)) : String :=
  ⟨((scanCitations content.data).map (renderTok cits)).flatten⟩

/-- The keys `Object.keys(citations).sort((a, b) => parseInt(a) - parseInt(b))`
paired with the recorded texts: the reference entries in ascending
citation-number order. -/
def refsSorted (cits : List (Nat × String)) : List (Nat × String) :=
  ((cits.map Prod.fst).insertionSort (· ≤ ·)).map
    (fun n => (n, (lookupCit cits n).getD ""))

def refsItemsHtml : List (Nat × String) → String
  | [] => ""
  | (n, t) :: tl =>
    "<li id=\"ref-" ++ toString n ++ "\" class=\"reference-item\">" ++ t ++
      "</li>" ++ refsItemsHtml tl

/-- Method `MessageRenderer._buildReferencesSection`. -/
def referencesSectionHtml (refs : List (Nat × String)) : String :=
  "<div class=\"references-section\"><h4>References:</h4><ol class=\"references-list\">" ++
    refsItemsHtml refs ++ "</ol></div>"

/-- The citations map after both resolution strategies.  Strategy A runs
when sources and inline markers are both present.  The fallback strategy B
branch is guarded by `citationNumbers.length === 0` (with sources
present): its loop pattern `/\[(\d+)\]\s*([\s\S]*?)(?=\s*\[\d+\]|$)/g`
requires a `[N]` marker, of which the guard says the text has none, so
`exec` returns `null` at once, the loop body never runs, and neither the
text nor the citations map changes — the branch contributes nothing. -/
def citationsFor (content : String) (sources : List SourceRec) :
    List (Nat × String) :=
  let nums := citationNumbersIn content
  if 0 < sources.length ∧ 0 < nums.length then
    extractCitationsFromSources sources nums
  else []

structure RenderResult where
  html : String
  refs : List (Nat × String)
deriving DecidableEq

/-- Method `MessageRenderer.renderCitations` on the bubble's HTML string: when at
least one citation resolved, the bubble becomes the rewritten text plus
the references section; otherwise the bubble is left untouched (the
replace pass, which would have changed nothing, is discarded). -/
def renderCitations (content : String) (sources : List SourceRec) :
    RenderResult :=
  let cits := citationsFor content sources
  if 0 < cits.length then
    ⟨rewriteCitationMarkers content cits ++
       referencesSectionHtml (refsSorted cits),
     refsSorted cits⟩
  else ⟨content, []⟩

/-! ## Structure of the rendered citations -/

/-- The scanner's tokens spell out exactly the input text: markers stand
for the literal `[digits]` they replaced. -/
theorem scanCitationsF_join :
    ∀ (fuel : Nat) (l : List Char), l.length ≤ fuel →
    ((scanCitationsF fuel l).map ctokText).flatten = l := by
  intro fuel
  induction fuel with
  | zero =>
    intro l hl
    have h0 : l = [] := List.length_eq_zero.mp (Nat.le_zero.mp hl)
    subst h0
    rfl
  | succ fuel ih =>
    intro l hl
    match l with
    | [] => rfl
    | c :: rest =>
      simp only [List.length_cons, Nat.add_le_add_iff_right] at hl
      by_cases hc : c = lbrk
      · rcases hdw : rest.dropWhile Char.isDigit with _ | ⟨b, after⟩
        · simp only [scanCitationsF, if_pos hc, hdw]
          simp only [List.map_cons, List.flatten_cons, ctokText]
          rw [ih rest hl]
          simp
        · by_cases hm : (rest.takeWhile Char.isDigit) ≠ [] ∧ b = rbrk
          · simp only [scanCitationsF, if_pos hc, hdw, if_pos hm]
            simp only [List.map_cons, List.flatten_cons, ctokText]
            have hafter : after.length ≤ fuel := by
              have h1 := dropWhile_length_le Char.isDigit rest
              rw [hdw] at h1
              simp only [List.length_cons] at h1
              omega
            have hsplit := List.takeWhile_append_dropWhile
              (p := Char.isDigit) (l := rest)
            rw [hdw, hm.2] at hsplit
            rw [ih after hafter, hc]
            simp only [List.cons_append, List.append_assoc,
              List.singleton_append, List.nil_append]
            conv_rhs => rw [← hsplit]
          · simp only [scanCitationsF, if_pos hc, hdw, if_neg hm]
            simp only [List.map_cons, List.flatten_cons, ctokText]
            rw [ih rest hl]
            simp
      · simp only [scanCitationsF, if_neg hc]
        simp only [List.map_cons, List.flatten_cons, ctokText]
        rw [ih rest hl]
        simp

theorem scanCitations_join (l : List Char) :
    ((scanCitations l).map ctokText).flatten = l :=
  scanCitationsF_join l.length l (le_refl _)

theorem lookupCit_isSome_iff (cits : List (Nat × String)) (n : Nat) :
    (lookupCit cits n).isSome ↔ n ∈ cits.map Prod.fst := by
  induction cits with
  | nil => simp [lookupCit, List.lookup]
  | cons p tl ih =>
    rcases p with ⟨k, v⟩
    simp only [lookupCit, List.lookup] at ih ⊢
    cases hnk : n == k
    · have hne : ¬ n = k := by
        intro h
        subst h
        simp at hnk
      simp [hnk, ih, hne]
    · have heq : n = k := by simpa using hnk
      simp [hnk, heq]

theorem lookupCit_citInsert_self (n : Nat) (v : String)
    (cits : List (Nat × String)) :
    lookupCit (citInsert n v cits) n = some v := by
  simp [lookupCit, citInsert, List.lookup]

theorem lookup_filter_ne (cits : List (Nat × String)) (m n : Nat)
    (h : m ≠ n) :
    List.lookup m (cits.filter (fun p => p.1 ≠ n)) = List.lookup m cits := by
  induction cits with
  | nil => rfl
  | cons p tl ih =>
    rcases p with ⟨k, v⟩
    by_cases hk : k = n
    · subst hk
      rw [List.filter_cons_of_neg (by simp)]
      rw [ih]
      have hmk : (m == k) = false := by
        cases hb : m == k
        · rfl
        · exact absurd (by simpa using hb) h
      simp only [List.lookup, hmk]
    · rw [List.filter_cons_of_pos (by simpa using hk)]
      simp only [List.lookup]
      cases hmk : m == k
      · simp only [hmk]
        exact ih
      · simp only [hmk]

theorem lookupCit_citInsert_ne (n m : Nat) (v : String)
    (cits : List (Nat × String)) (h : m ≠ n) :
    lookupCit (citInsert n v cits) m = lookupCit cits m := by
  rw [lookupCit, citInsert]
  have hmn : (m == n) = false := by
    cases hb : m == n
    · rfl
    · exact absurd (by simpa using hb) h
  simp only [List.lookup, hmn]
  exact lookup_filter_ne cits m n h

theorem citInsert_keys_nodup (n : Nat) (v : String)
    (cits : List (Nat × String)) (h : (cits.map Prod.fst).Nodup) :
    ((citInsert n v cits).map Prod.fst).Nodup := by
  simp only [citInsert, List.map_cons, List.nodup_cons]
  constructor
  · intro hmem
    rcases List.mem_map.mp hmem with ⟨p, hp, hfst⟩
    rcases List.mem_filter.mp hp with ⟨_, hne⟩
    exact (of_decide_eq_true hne) hfst
  · exact ((List.filter_sublist cits).map Prod.fst).nodup h

theorem extractFold_lookup_not_mem (sd : SourceRec) (nums : List Nat)
    (n : Nat) (hn : n ∉ nums) :
    ∀ acc, lookupCit (nums.foldl (fun acc n =>
      match matchContent sd n with
      | some d => citInsert n (buildReferenceText sd n d) acc
      | none => acc) acc) n = lookupCit acc n := by
  induction nums with
  | nil => intro acc; rfl
  | cons m rest ih =>
    intro acc
    have hnm : n ≠ m := fun h => hn (h ▸ List.mem_cons_self m rest)
    have hnr : n ∉ rest := fun h => hn (List.mem_cons_of_mem m h)
    rw [List.foldl_cons, ih hnr]
    cases hmc : matchContent sd m
    · rfl
    · exact lookupCit_citInsert_ne m n _ acc hnm

theorem extractFold_lookup_mem (sd : SourceRec) (nums : List Nat)
    (n : Nat) (hn : n ∈ nums) :
    ∀ acc, lookupCit (nums.foldl (fun acc n =>
      match matchContent sd n with
      | some d => citInsert n (buildReferenceText sd n d) acc
      | none => acc) acc) n =
      (match matchContent sd n with
       | some d => some (buildReferenceText sd n d)
       | none => lookupCit acc n) := by
  induction nums with
  | nil => exact absurd hn (List.not_mem_nil n)
  | cons m rest ih =>
    intro acc
    rw [List.foldl_cons]
    by_cases hnr : n ∈ rest
    · rw [ih hnr]
      cases hmc : matchContent sd n
      · by_cases hnm : n = m
        · subst hnm
          rw [hmc]
        · cases hmm : matchContent sd m
          · rfl
          · exact lookupCit_citInsert_ne m n _ acc hnm
      · rfl
    · have hnm : n = m := by
        rcases List.mem_cons.mp hn with h | h
        · exact h
        · exact absurd h hnr
      subst hnm
      rw [extractFold_lookup_not_mem sd rest n hnr]
      cases hmc : matchContent sd n
      · rfl
      · exact lookupCit_citInsert_self n _ acc

/-- One source's pass: for any citation number of the text, the source
either resolves it — overwriting whatever was recorded — or leaves the
recorded reference unchanged. -/
theorem extractFromSource_lookup (sd : SourceRec) (nums : List Nat)
    (cits : List (Nat × String)) (n : Nat) (hn : n ∈ nums) :
    lookupCit (extractFromSource nums cits sd) n =
      (match matchContent sd n with
       | some d => some (buildReferenceText sd n d)
       | none => lookupCit cits n) := by
  unfold extractFromSource
  split
  · exact extractFold_lookup_mem sd nums n hn cits
  · rename_i hdoc
    have : matchContent sd n = none := by
      unfold matchContent
      rw [if_neg hdoc]
    rw [this]

/-- The reference text the last successfully matching source determines
for citation `n`, scanning the sources in array order. -/
def lastMatchRef (sources : List SourceRec) (n : Nat) : Option String :=
  sources.foldl (fun acc sd =>
    match matchContent sd n with
    | some d => some (buildReferenceText sd n d)
    | none => acc) none

theorem extractSources_lookup (nums : List Nat) (n : Nat) (hn : n ∈ nums) :
    ∀ (sources : List SourceRec) (cits : List (Nat × String)),
    lookupCit (sources.foldl (fun cits sd => extractFromSource nums cits sd) cits) n =
      sources.foldl (fun acc sd =>
        match matchContent sd n with
        | some d => some (buildReferenceText sd n d)
        | none => acc) (lookupCit cits n) := by
  intro sources
  induction sources with
  | nil => intro cits; rfl
  | cons sd rest ih =>
    intro cits
    rw [List.foldl_cons, List.foldl_cons, ih,
      extractFromSource_lookup sd nums cits n hn]

/-! Distinctness of the recorded citation numbers. -/

theorem extractFold_keys_nodup (sd : SourceRec) (nums : List Nat) :
    ∀ acc, ((acc : List (Nat × String)).map Prod.fst).Nodup →
    ((nums.foldl (fun acc n =>
      match matchContent sd n with
      | some d => citInsert n (buildReferenceText sd n d) acc
      | none => acc) acc).map Prod.fst).Nodup := by
  induction nums with
  | nil => exact fun acc h => h
  | cons m rest ih =>
    intro acc hacc
    rw [List.foldl_cons]
    apply ih
    cases hmm : matchContent sd m
    · exact hacc
    · exact citInsert_keys_nodup m _ acc hacc

theorem extractFromSource_keys_nodup (sd : SourceRec) (nums : List Nat)
    (cits : List (Nat × String)) (h : (cits.map Prod.fst).Nodup) :
    ((extractFromSource nums cits sd).map Prod.fst).Nodup := by
  unfold extractFromSource
  split
  · exact extractFold_keys_nodup sd nums cits h
  · exact h

theorem extractSources_keys_nodup (nums : List Nat) :
    ∀ (sources : List SourceRec) (cits : List (Nat × String)),
    (cits.map Prod.fst).Nodup →
    ((sources.foldl (fun cits sd => extractFromSource nums cits sd) cits).map
      Prod.fst).Nodup := by
  intro sources
  induction sources with
  | nil => exact fun cits h => h
  | cons sd rest ih =>
    intro cits hcits
    rw [List.foldl_cons]
    exact ih _ (extractFromSource_keys_nodup sd nums cits hcits)

theorem citationsFor_keys_nodup (content : String) (sources : List SourceRec) :
    ((citationsFor content sources).map Prod.fst).Nodup := by
  unfold citationsFor
  dsimp only
  split
  · exact extractSources_keys_nodup _ sources [] (by simp)
  · simp

/-! The sorted references list. -/

theorem refsSorted_keys (cits : List (Nat × String)) :
    (refsSorted cits).map Prod.fst =
      (cits.map Prod.fst).insertionSort (· ≤ ·) := by
  rw [refsSorted, List.map_map]
  have hcomp : (Prod.fst ∘ fun n => (n, (lookupCit cits n).getD "")) =
      fun n : Nat => n := rfl
  rw [hcomp]
  exact List.map_id' _

theorem refsSorted_pairwise (cits : List (Nat × String))
    (h : (cits.map Prod.fst).Nodup) :
    List.Pairwise (fun a b => a.1 < b.1) (refsSorted cits) := by
  have hsort : ((cits.map Prod.fst).insertionSort (· ≤ ·)).Sorted (· ≤ ·) :=
    List.sorted_insertionSort _ _
  have hperm : ((cits.map Prod.fst).insertionSort (· ≤ ·)).Perm
      (cits.map Prod.fst) := List.perm_insertionSort _ _
  have hnd : ((cits.map Prod.fst).insertionSort (· ≤ ·)).Nodup :=
    hperm.symm.nodup h
  have hlt : ((cits.map Prod.fst).insertionSort (· ≤ ·)).Pairwise (· < ·) :=
    (hsort.and hnd).imp (fun hab => lt_of_le_of_ne hab.1 hab.2)
  rw [refsSorted]
  exact (List.pairwise_map).mpr (hlt.imp (fun hab => hab))

theorem refsSorted_mem_keys (cits : List (Nat × String)) (n : Nat) :
    n ∈ (refsSorted cits).map Prod.fst ↔ (lookupCit cits n).isSome := by
  rw [refsSorted_keys,
    (List.perm_insertionSort (· ≤ ·) (cits.map Prod.fst)).mem_iff,
    lookupCit_isSome_iff]

theorem refsSorted_entry (cits : List (Nat × String)) (n : Nat) (r : String)
    (h : (n, r) ∈ refsSorted cits) : lookupCit cits n = some r := by
  rw [refsSorted] at h
  rcases List.mem_map.mp h with ⟨k, hk, hkr⟩
  have hn : k = n := congrArg Prod.fst hkr
  subst hn
  have hmem : k ∈ cits.map Prod.fst :=
    ((List.perm_insertionSort (· ≤ ·) (cits.map Prod.fst)).mem_iff).mp hk
  have hsome : (lookupCit cits k).isSome :=
    (lookupCit_isSome_iff cits k).mpr hmem
  rcases Option.isSome_iff_exists.mp hsome with ⟨x, hx⟩
  have hr : r = (lookupCit cits k).getD "" := (congrArg Prod.snd hkr).symm
  rw [hx] at hr
  rw [hx, hr]
  rfl

/-! ## Claims about citation rendering -/

/-- C8: citation resolution (i) decomposes the text faithfully — the
scanner's tokens, with markers read as their literal `[N]` text,
reconstruct the input, so the final replace pass rewrites exactly the
resolved markers into anchors and leaves unresolved markers as plain
`[N]` text; (ii) when anything resolved, the bubble becomes the rewritten
text followed by the generated references section, whose entries are
(iii) strictly ascending by citation number and (iv, v) exactly the
resolved citation numbers with their recorded reference texts; and (vi)
text with no `[N]` markers comes back unchanged with no references,
whatever the sources. -/
theorem c8_renderCitations (content : String) (sources : List SourceRec) :
    ((scanCitations content.data).map ctokText).flatten = content.data ∧
    (renderCitations content sources).html =
      (if citationsFor content sources = [] then content
       else rewriteCitationMarkers content (citationsFor content sources) ++
         referencesSectionHtml ((renderCitations content sources).refs)) ∧
    List.Pairwise (fun a b => a.1 < b.1) (renderCitations content sources).refs ∧
    (∀ n, n ∈ (renderCitations content sources).refs.map Prod.fst ↔
      (lookupCit (citationsFor content sources) n).isSome) ∧
    (∀ n r, (n, r) ∈ (renderCitations content sources).refs →
      lookupCit (citationsFor content sources) n = some r) ∧
    (citationNumbersIn content = [] →
      (renderCitations content sources).html = content ∧
      (renderCitations content sources).refs = []) := by
  have hcits : (renderCitations content sources).refs =
      (if citationsFor content sources = [] then []
       else refsSorted (citationsFor content sources)) := by
    unfold renderCitations
    dsimp only
    rcases hc : citationsFor content sources with _ | ⟨p, tl⟩
    · rfl
    · rw [if_pos (by simp), if_neg (by simp)]
  refine ⟨scanCitations_join content.data, ?_, ?_, ?_, ?_, ?_⟩
  · unfold renderCitations
    dsimp only
    rcases hc : citationsFor content sources with _ | ⟨p, tl⟩
    · rw [if_neg (by simp), if_pos rfl]
    · rw [if_pos (by simp), if_neg (by simp)]
  · rw [hcits]
    split
    · exact List.Pairwise.nil
    · exact refsSorted_pairwise _ (citationsFor_keys_nodup content sources)
  · intro n
    rw [hcits]
    split
    · rename_i hc
      rw [hc]
      simp [lookupCit, List.lookup]
    · exact refsSorted_mem_keys _ n
  · intro n r hmem
    rw [hcits] at hmem
    split at hmem
    · exact absurd hmem (List.not_mem_nil _)
    · exact refsSorted_entry _ n r hmem
  · intro hnums
    have hc : citationsFor content sources = [] := by
      unfold citationsFor
      rw [hnums]
      simp
    constructor
    · unfold renderCitations
      dsimp only
      rw [hc]
      rfl
    · rw [hcits, if_pos hc]

/-- C8 witness: a marker-free text passes through unchanged (vi), and a
concrete resolved reference entry is looked up by its number (v). -/
theorem c8_renderCitations_witness :
    ((renderCitations "hello" []).html = "hello" ∧
      (renderCitations "hello" []).refs = []) ∧
    lookupCit (citationsFor "See [1]."
        [⟨.str "Doc", .undefined, jsObj [("1", .str "Alpha")], .undefined⟩]) 1 =
      some "<strong>Doc</strong><br><em>Alpha...</em>" :=
  ⟨(c8_renderCitations "hello" []).2.2.2.2.2 (by rfl),
   (c8_renderCitations "See [1]."
      [⟨.str "Doc", .undefined, jsObj [("1", .str "Alpha")], .undefined⟩]).2.2.2.2.1
      1 "<strong>Doc</strong><br><em>Alpha...</em>" (by decide)⟩

/-- C9: for every citation number appearing in the text, the recorded
reference is the one built by the last source (in array order) whose
document resolves that number — later sources override earlier ones. -/
theorem c9_last_source_wins (sources : List SourceRec) (nums : List Nat)
    (n : Nat) (hn : n ∈ nums) :
    lookupCit (extractCitationsFromSources sources nums) n =
      lastMatchRef sources n := by
  unfold extractCitationsFromSources lastMatchRef
  rw [extractSources_lookup nums n hn sources []]
  rfl

/-- C9 witness: two sources whose documents both resolve citation 1; the
recorded reference is the second source's. -/
theorem c9_last_source_wins_witness :
    (1 : Nat) ∈ [1] ∧
    lookupCit (extractCitationsFromSources
        [⟨.str "Doc", .undefined, jsObj [("1", .str "Alpha")], .undefined⟩,
         ⟨.str "Two", .undefined, jsObj [("1", .str "Beta")], .undefined⟩] [1]) 1 =
      lastMatchRef
        [⟨.str "Doc", .undefined, jsObj [("1", .str "Alpha")], .undefined⟩,
         ⟨.str "Two", .undefined, jsObj [("1", .str "Beta")], .undefined⟩] 1 :=
  ⟨by decide,
   c9_last_source_wins
     [⟨.str "Doc", .undefined, jsObj [("1", .str "Alpha")], .undefined⟩,
      ⟨.str "Two", .undefined, jsObj [("1", .str "Beta")], .undefined⟩]
     [1] 1 (by decide)⟩

/-- The override, concretely: with two sources both matching citation 1,
the second source's reference text is the one recorded. -/
theorem lastSourceOverrideExample :
    lookupCit (extractCitationsFromSources
        [⟨.str "Doc", .undefined, jsObj [("1", .str "Alpha")], .undefined⟩,
         ⟨.str "Two", .undefined, jsObj [("1", .str "Beta")], .undefined⟩] [1]) 1 =
      some "<strong>Two</strong><br><em>Beta...</em>" := by decide

end ChatWidget
